import Mathlib

/-!
Verification of the NeuroRehab cognitive-rehabilitation suite
(React/TypeScript repository).

This file shallowly embeds the trial/session engine of the training
modules (Reak, Nback, Sacc, Corsi) and the localStorage-backed
persistence layer (`storage` in `src/services`), and proves or refutes
the frozen specification claims about them.

Conventions of the embedding:
* JavaScript numbers holding counters are modelled as `Nat`; reaction
  times and averages (which divide) as `ℚ`.
* `Math.random()` draws are modelled as explicit streams (`Nat → β`):
  each call of the source consumes the next stream element, so every
  possible random-source behaviour corresponds to some stream.
* The single-threaded browser event loop is modelled as a sequence of
  atomic events folded over a machine state: each timer callback or
  input handler runs to completion and its state updates are visible to
  the next event, matching React's flush-before-next-task behaviour.
  A `setTimeout` handle is modelled as an "armed" flag: a fired event
  is a no-op unless its timer is armed, and `clearTimeout` disarms it
  (a cleared browser timer whose deadline passed never runs its
  callback).
* `JSON.parse` / `JSON.stringify` are platform primitives, not
  repository code, so the storage operations are parameterised over a
  parse function `String → Option _` (with `none` modelling a thrown
  `SyntaxError`) and a stringify function `List _ → String`.
-/

/-- Structure `GameState` from `src/types` (`part_000`): the mutable session state
shared by every module. -/
structure GameState where
  level : Nat
  score : Nat
  errors : Nat
  trials : Nat
  isPlaying : Bool
  isPaused : Bool
deriving DecidableEq, Repr

/-- The initial session state every module mounts with:
`{ level: 1, score: 0, errors: 0, trials: 0, isPlaying: true, isPaused: false }`. -/
def initGameState : GameState :=
  { level := 1, score := 0, errors := 0, trials := 0, isPlaying := true, isPaused := false }

/-- Reak `handleAction`, `status === 'go'` branch (part_001 lines 103-108):
`score+1`, `trials+1`, `level: prev.score > 0 && prev.score % 5 === 0 ? prev.level + 1 : prev.level`. -/
def reakCorrectUpdate (g : GameState) : GameState :=
  { g with
    score := g.score + 1
    trials := g.trials + 1
    level := if 0 < g.score ∧ g.score % 5 = 0 then g.level + 1 else g.level }

/-- Reak error update, used both by the early-press branch of
`handleAction` and by the miss timer (part_001 lines 71 and 95):
`errors+1`, `trials+1`, level unchanged. -/
def reakErrorUpdate (g : GameState) : GameState :=
  { g with errors := g.errors + 1, trials := g.trials + 1 }

/-- Nback `handleMatch` correct branch (Nback.tsx lines 199-204):
`score+1`, `trials+1`,
`level: (prev.score > 0 && prev.score % 5 === 0) ? Math.min(20, prev.level + 1) : prev.level`. -/
def nbackCorrectUpdate (g : GameState) : GameState :=
  { g with
    score := g.score + 1
    trials := g.trials + 1
    level := if 0 < g.score ∧ g.score % 5 = 0 then min 20 (g.level + 1) else g.level }

/-- Nback error update, used by the wrong-press branch of `handleMatch`
(line 207) and the omission check of `startBlankPhase` (line 84):
`errors+1`, `trials+1`. -/
def nbackErrorUpdate (g : GameState) : GameState :=
  { g with errors := g.errors + 1, trials := g.trials + 1 }

/-- Sacc `handleItemClick` target branch (Sacc.tsx lines 113-128):
`score+1`, `trials+1`, and
`if ((gameState.score + 1) % 3 === 0) newLevel = Math.min(30, newLevel + 1)`. -/
def saccCorrectUpdate (g : GameState) : GameState :=
  { g with
    score := g.score + 1
    trials := g.trials + 1
    level := if (g.score + 1) % 3 = 0 then min 30 (g.level + 1) else g.level }

/-- Sacc `handleItemClick` non-target branch (Sacc.tsx lines 132-141):
`errors+1`, `trials+1`,
`level: prev.errors > 0 && prev.errors % 3 === 0 ? Math.max(1, prev.level - 1) : prev.level`. -/
def saccErrorUpdate (g : GameState) : GameState :=
  { g with
    errors := g.errors + 1
    trials := g.trials + 1
    level := if 0 < g.errors ∧ g.errors % 3 = 0 then max 1 (g.level - 1) else g.level }

/-- One Sacc trial outcome applied to the session state: `true` is a
click on the target, `false` a click on a distractor. -/
def saccApply (g : GameState) (correct : Bool) : GameState :=
  if correct then saccCorrectUpdate g else saccErrorUpdate g

/-- The partial result handed to `onComplete` by each module:
`Omit<SessionResult, 'id' | 'userId' | 'timestamp'>` from `src/types`. -/
structure PartialResult where
  moduleId : String
  durationSeconds : Nat
  level : Nat
  correctCount : Nat
  errorCount : Nat
  totalTrials : Nat
  averageReactionTimeMs : ℚ
deriving DecidableEq, Repr

/-- Reak `finishSession` (part_001 lines 121-126):
`avgRt = reactionTimes.length > 0 ? reactionTimes.reduce((a,b) => a+b, 0) / reactionTimes.length : 0`,
all counters copied verbatim from the session state. -/
def reakFinishSession (gs : GameState) (reactionTimes : List ℚ) : PartialResult :=
  { moduleId := "REAK"
    durationSeconds := 0
    level := gs.level
    correctCount := gs.score
    errorCount := gs.errors
    totalTrials := gs.trials
    averageReactionTimeMs :=
      if 0 < reactionTimes.length then
        reactionTimes.foldl (· + ·) 0 / (reactionTimes.length : ℚ)
      else 0 }

/-- Sacc `finishSession` (Sacc.tsx lines 144-158), identical computation
with `moduleId: ModuleID.SACC`. -/
def saccFinishSession (gs : GameState) (reactionTimes : List ℚ) : PartialResult :=
  { reakFinishSession gs reactionTimes with moduleId := "SACC" }

/-- Spec-side definition (for the refinement claim about the reporter):
the arithmetic mean of a list of rationals. -/
def listMean (l : List ℚ) : ℚ := l.sum / (l.length : ℚ)

/-- Reak's `status` state: `'waiting' | 'ready' | 'go' | 'feedback'`
(`ready` is declared in the source union but never assigned). -/
inductive RStatus where
  | waiting
  | ready
  | go
  | feedback
deriving DecidableEq, Repr

/-- The Reak component's state relevant to scheduling: the session
state, the `status` state variable, and one armed-flag per
`setTimeout` handle (`timeoutRef`, `missTimerRef`, `feedbackTimerRef`). -/
structure ReakSt where
  gs : GameState
  status : RStatus
  goArmed : Bool
  missArmed : Bool
  fbArmed : Bool
deriving DecidableEq, Repr

/-- Events of the Reak event loop: a user action (click or Space), the
stimulus-onset timer firing, the miss timer firing, the feedback timer
firing, and the pause button. -/
inductive ReakEv where
  | press
  | goFires
  | missFires
  | fbFires
  | pauseToggle
deriving DecidableEq, Repr

/-- One event of the Reak machine (part_001 lines 38-119).

* `pauseToggle` is `onPauseToggle={() => setGameState(p => ({...p, isPaused: !p.isPaused}))}`
  (line 143): it only flips the flag and cancels nothing.
* `goFires` is the `timeoutRef` callback (lines 58-64): it checks only
  `isMounted` — not the pause flag — then shows the stimulus and arms
  the miss timer.
* `missFires` is the `missTimerRef` callback (lines 65-74): its
  `status !== 'feedback'` test reads the `status` const captured by the
  closure that armed it, which was captured in a render whose status was
  never `'feedback'` (the arming `scheduleTrial` runs only from the
  mount effect or a feedback timer set while status was `waiting`/`go`),
  so the test always passes and a miss is recorded.
* `press` is `handleAction` (lines 87-111).
* `fbFires` is the feedback timer invoking `scheduleTrial`
  (lines 44-57), which re-enters `waiting` and arms the stimulus timer
  unless the session is paused or stopped. -/
def reakStep (s : ReakSt) : ReakEv → ReakSt
  | .pauseToggle => { s with gs := { s.gs with isPaused := !s.gs.isPaused } }
  | .goFires =>
      if s.goArmed then
        { s with goArmed := false, status := .go, missArmed := true }
      else s
  | .missFires =>
      if s.missArmed then
        { s with
          missArmed := false
          status := .feedback
          gs := reakErrorUpdate s.gs
          fbArmed := true }
      else s
  | .fbFires =>
      if s.fbArmed then
        if s.gs.isPlaying ∧ s.gs.isPaused = false then
          { s with fbArmed := false, status := .waiting, goArmed := true, missArmed := false }
        else { s with fbArmed := false }
      else s
  | .press =>
      if s.gs.isPaused ∨ s.status = .feedback then s
      else
        match s.status with
        | .waiting =>
            { s with
              goArmed := false
              missArmed := false
              status := .feedback
              gs := reakErrorUpdate s.gs
              fbArmed := true }
        | .go =>
            { s with
              missArmed := false
              status := .feedback
              gs := reakCorrectUpdate s.gs
              fbArmed := true }
        | _ => s

/-- Run the Reak machine over a sequence of event-loop events. -/
def reakRun (s : ReakSt) (evs : List ReakEv) : ReakSt :=
  evs.foldl reakStep s

/-- Reak state right after mount: the mount effect calls
`scheduleTrial`, which sets status `waiting` and arms the
stimulus-onset timer. -/
def initReakSt : ReakSt :=
  { gs := initGameState, status := .waiting, goArmed := true, missArmed := false, fbArmed := false }

/-- A Reak state in which a stimulus is presented: status `go`, the
miss timer armed, arbitrary counters. -/
def mkReakPresented (lv sc er tr : Nat) : ReakSt :=
  { gs := { level := lv, score := sc, errors := er, trials := tr, isPlaying := true, isPaused := false }
    status := .go
    goArmed := false
    missArmed := true
    fbArmed := false }

/-- Interleavings of the trial-resolution race: `true` is a user
action, `false` the miss timer firing. -/
def reakRace (bs : List Bool) : List ReakEv :=
  bs.map (fun b => if b then ReakEv.press else ReakEv.missFires)

/-- The Nback component's state relevant to scheduling
(Nback.tsx lines 27-62): session state, the shown icon
(`currentIconIdx`), the accuracy refs (`isCurrentTargetRef`,
`userRespondedRef`, `historyRef`), one armed-flag per timer
(`displayTimerRef`, `blankTimerRef`), and `isLoopRunningRef`. -/
structure NbSt where
  gs : GameState
  icon : Option Nat
  isTarget : Bool
  responded : Bool
  hist : List Nat
  displayArmed : Bool
  blankArmed : Bool
  loopRunning : Bool
deriving DecidableEq, Repr

/-- Nback `startBlankPhase` (Nback.tsx lines 77-100): guard on
`isPlaying && !isPaused`; record an omission error if the ending
display was a target the user did not respond to (and history is
non-empty); blank the icon, reset the per-trial refs, clear timers and
arm the blank timer. -/
def startBlankPhase (s : NbSt) : NbSt :=
  if s.gs.isPlaying ∧ s.gs.isPaused = false then
    { s with
      gs :=
        if s.isTarget ∧ s.responded = false ∧ s.hist ≠ [] then
          nbackErrorUpdate s.gs
        else s.gs
      icon := none
      isTarget := false
      responded := false
      displayArmed := false
      blankArmed := true }
  else s

/-- Events of the Nback event loop. `blankFires next isM` is the blank
timer invoking `prepareAndShowNext` (lines 103-169): the stimulus it
samples is carried on the event (`next` = the chosen icon index, `isM`
= whether the 35%-coin chose a forced match with enough history); the
sampling itself is verified separately via `nbackSample`. -/
inductive NbEv where
  | press
  | displayFires
  | blankFires (next : Nat) (isM : Bool)
  | pauseToggle
deriving DecidableEq, Repr

/-- One event of the Nback machine.

* `press` is `handleMatch` (lines 190-209): ignored if already
  responded or no icon is shown; otherwise latches `userRespondedRef`
  and records exactly one outcome using the accuracy refs.
* `displayFires` is the display timer ending the presentation and
  entering `startBlankPhase`.
* `blankFires` is the blank timer committing the next stimulus:
  append to history, set the target ref, show the icon, arm the display
  timer (guarded by `isPlaying && !isPaused` at the top of
  `prepareAndShowNext`).
* `pauseToggle` flips `isPaused` and then runs the game-state watcher
  effect (lines 174-187): when paused it stops the loop and clears both
  timers; when resumed it restarts the loop via `startBlankPhase`. -/
def nbStep (s : NbSt) : NbEv → NbSt
  | .press =>
      if s.responded = true ∨ s.icon = none then s
      else
        if s.isTarget then
          { s with responded := true, gs := nbackCorrectUpdate s.gs }
        else
          { s with responded := true, gs := nbackErrorUpdate s.gs }
  | .displayFires =>
      if s.displayArmed then startBlankPhase { s with displayArmed := false } else s
  | .blankFires next isM =>
      if s.blankArmed then
        if s.gs.isPlaying ∧ s.gs.isPaused = false then
          { s with
            blankArmed := false
            hist := s.hist ++ [next]
            isTarget := isM
            icon := some next
            displayArmed := true }
        else { s with blankArmed := false }
      else s
  | .pauseToggle =>
      let s1 : NbSt := { s with gs := { s.gs with isPaused := !s.gs.isPaused } }
      if s1.gs.isPlaying ∧ s1.gs.isPaused = false then
        if s1.loopRunning = false then
          startBlankPhase { s1 with loopRunning := true }
        else s1
      else
        { s1 with loopRunning := false, displayArmed := false, blankArmed := false }

/-- Run the Nback machine over a sequence of event-loop events. -/
def nbRun (s : NbSt) (evs : List NbEv) : NbSt :=
  evs.foldl nbStep s

/-- Nback state right after mount: the watcher effect starts the loop
with an initial `startBlankPhase` (no icon, blank timer armed). -/
def initNbSt : NbSt :=
  { gs := initGameState
    icon := none
    isTarget := false
    responded := false
    hist := []
    displayArmed := false
    blankArmed := true
    loopRunning := true }

/-- An Nback state in which a stimulus is presented: icon `k` shown
(so history ends with `k`), target flag `tgt`, display timer armed,
arbitrary counters. -/
def mkNbPresented (k : Nat) (tgt : Bool) (h : List Nat) (lv sc er tr : Nat) : NbSt :=
  { gs := { level := lv, score := sc, errors := er, trials := tr, isPlaying := true, isPaused := false }
    icon := some k
    isTarget := tgt
    responded := false
    hist := h ++ [k]
    displayArmed := true
    blankArmed := false
    loopRunning := true }

/-- Interleavings of the Nback trial-resolution race: `true` is a press
of the MATCH button, `false` the display timer (the response deadline)
firing. -/
def nbRace (bs : List Bool) : List NbEv :=
  bs.map (fun b => if b then NbEv.press else NbEv.displayFires)

/-- Nback `getN` (Nback.tsx lines 69-73): level ≤ 5 → 1-back,
level ≤ 10 → 2-back, otherwise 3-back. -/
def getN (lvl : Nat) : Nat :=
  if lvl ≤ 5 then 1 else if lvl ≤ 10 then 2 else 3

/-- Number of icons in Nback's `ICONS` array. -/
def nbackIconCount : Nat := 24

/-- The validity test of Nback's non-match sampling loop
(Nback.tsx lines 134-146): the candidate `r` is invalid if it equals
the n-back target (`targetHistoryIdx = h.length - n ≥ 0` and
`r = h[targetHistoryIdx]`), or if `n > 1` and it repeats the
immediately previous item. -/
def nbackValid (h : List Nat) (n r : Nat) : Bool :=
  !(decide (n ≤ h.length) && decide (r = h.getD (h.length - n) 0)) &&
  !(decide (1 < n) && !h.isEmpty && decide (r = h.getLastD 0))

/-- The rejection-sampling do/while of `prepareAndShowNext`
(Nback.tsx lines 125-148): attempt `i` draws `rng i`; a valid draw
breaks out, and after 10 attempts the loop exits with whatever the
last draw was — the `// Safety break` — even if it is invalid.
`f` is the number of attempts remaining. -/
def nbackGo (rng : Nat → Nat) (h : List Nat) (n : Nat) : Nat → Nat → Nat
  | _, 0 => rng 0
  | i, f + 1 =>
      let r := rng i
      if nbackValid h n r then r
      else if f = 0 then r else nbackGo rng h n (i + 1) f

/-- The non-match stimulus produced by Nback's sampling loop from the
random stream `rng`, history `h` and level-derived `n`. -/
def nbackSample (rng : Nat → Nat) (h : List Nat) (n : Nat) : Nat :=
  nbackGo rng h n 0 10

/-- One entry of Sacc's item grid (Sacc.tsx `Item`, with the shape and
color represented by their indices into `availableShapes` /
`availableColors`). -/
structure SaccItem where
  shapeIdx : Nat
  colorIdx : Nat
  isTarget : Bool
deriving DecidableEq, Repr

/-- Sacc's rejection loop for one distractor (Sacc.tsx lines 82-89):
`while (shapeIdx === targetShapeIdx && colorIdx === targetColorIdx)`
redraw. The source loop has NO retry bound; `f` is a fuel bound on the
number of draws examined and `none` means the loop has not terminated
within `f` draws. On success the next unconsumed stream position is
returned alongside the accepted pair. -/
def saccFindD (rng : Nat → Nat × Nat) (tgt : Nat × Nat) : Nat → Nat → Option ((Nat × Nat) × Nat)
  | 0, _ => none
  | f + 1, i =>
      let p := rng i
      if p.1 = tgt.1 ∧ p.2 = tgt.2 then saccFindD rng tgt f (i + 1) else some (p, i + 1)

/-- The `for (let i = 1; i < numItems; i++)` distractor loop of Sacc's
`generateTrial` (lines 81-97): `c` distractors drawn sequentially from
the stream starting at position `i`, each via the rejection loop. -/
def saccDistractors (rng : Nat → Nat × Nat) (tgt : Nat × Nat) (f : Nat) :
    Nat → Nat → Option (List (Nat × Nat))
  | 0, _ => some []
  | c + 1, i =>
      match saccFindD rng tgt f i with
      | none => none
      | some (p, i') =>
          match saccDistractors rng tgt f c i' with
          | none => none
          | some ps => some (p :: ps)

/-- Sacc `generateTrial` (Sacc.tsx lines 53-102) up to the final
shuffle (`sort(() => Math.random() - 0.5)`, a permutation that moves
no item in or out of the list): the target item followed by
`numItems - 1` distractors. `none` means some distractor's rejection
loop has not terminated within `f` draws. -/
def saccGenTrial (rng : Nat → Nat × Nat) (tgt : Nat × Nat) (numItems f : Nat) :
    Option (List SaccItem) :=
  match saccDistractors rng tgt f (numItems - 1) 0 with
  | none => none
  | some ds =>
      some (⟨tgt.1, tgt.2, true⟩ :: ds.map (fun p => ⟨p.1, p.2, false⟩))

/-- Sacc `getParams` (Sacc.tsx lines 44-51). -/
def saccGetParams (level : Nat) : Nat × Nat × Nat :=
  let gridSize := min (3 + (level - 1) / 5) 8
  let numItems := gridSize * gridSize
  let complexity := min (3 + level / 2) 10
  (gridSize, numItems, complexity)

/-- The distance test of Corsi's block placement (Corsi.tsx lines
60-67): a candidate position is valid iff every already-placed block
is at Euclidean distance ≥ 18 (`minDist`), stated on squares
(`dx*dx + dy*dy ≥ 18*18`, equivalent to the source's
`Math.sqrt(dx*dx + dy*dy) < minDist` rejection). -/
def corsiValid (p : ℚ × ℚ) (blocks : List (ℚ × ℚ)) : Bool :=
  blocks.all fun b => decide (324 ≤ (b.1 - p.1) ^ 2 + (b.2 - p.2) ^ 2)

/-- One coordinate draw of Corsi's placement:
`x = 10 + Math.random() * 80`, `y = 10 + Math.random() * 80`
(Corsi.tsx lines 56-57), with stream element `rng i ∈ [0,1) × [0,1)`. -/
def corsiSampleXY (rng : Nat → ℚ × ℚ) (i : Nat) : ℚ × ℚ :=
  (10 + (rng i).1 * 80, 10 + (rng i).2 * 80)

/-- Corsi's `while (!valid && attempts < 100)` loop for one block
(Corsi.tsx lines 55-69): up to 100 draws; the first valid position is
kept, and if all 100 draws are invalid the last draw is pushed anyway
(the block is placed regardless after the loop). Returns the position
and the next unconsumed stream index. -/
def corsiTryPlace (rng : Nat → ℚ × ℚ) (blocks : List (ℚ × ℚ)) : Nat → Nat → (ℚ × ℚ) × Nat
  | i, 0 => (corsiSampleXY rng i, i + 1)
  | i, f + 1 =>
      let p := corsiSampleXY rng i
      if corsiValid p blocks then (p, i + 1)
      else if f = 0 then (p, i + 1) else corsiTryPlace rng blocks (i + 1) f

/-- The `for (let i = 0; i < 9; i++)` placement loop of Corsi's mount
effect (Corsi.tsx lines 46-74), accumulating placed blocks. -/
def corsiPlace (rng : Nat → ℚ × ℚ) : Nat → Nat → List (ℚ × ℚ) → List (ℚ × ℚ)
  | 0, _, acc => acc
  | k + 1, i, acc =>
      let r := corsiTryPlace rng acc i 100
      corsiPlace rng k r.2 (acc ++ [r.1])

/-- The nine Corsi block positions generated from the random stream. -/
def corsiBlocks (rng : Nat → ℚ × ℚ) : List (ℚ × ℚ) :=
  corsiPlace rng 9 0 []

/-- Structure `User` from `src/types`: `{ id, name, createdAt }`. -/
structure User where
  id : String
  name : String
  createdAt : Nat
deriving DecidableEq, Repr

/-- Structure `SessionResult` from `src/types`. -/
structure SessionResult where
  id : String
  userId : String
  moduleId : String
  timestamp : Nat
  durationSeconds : Nat
  level : Nat
  correctCount : Nat
  errorCount : Nat
  totalTrials : Nat
  averageReactionTimeMs : ℚ
deriving DecidableEq, Repr

/-- The localStorage contents seen by `storage` (service file, lines
113-114): the raw strings stored under `neurorehab_users` and
`neurorehab_sessions`, `none` when the key is absent. -/
structure RawStore where
  usersRaw : Option String
  sessionsRaw : Option String
deriving DecidableEq, Repr

/-- Embedding of `localStorage.getItem(KEY) || '[]'`: an absent key — and, by
JavaScript falsiness, an empty string — is replaced by `"[]"`. -/
def jsOrEmpty (r : Option String) : String :=
  match r with
  | none => "[]"
  | some s => if s = "" then "[]" else s

/-- Operation `storage.getUsers` (lines 117-123):
`try { return JSON.parse(localStorage.getItem(USERS_KEY) || '[]') } catch { return [] }`.
`pU` models `JSON.parse` at the users collection's type; `none` is a
thrown `SyntaxError`, caught and replaced by `[]`. -/
def getUsers (pU : String → Option (List User)) (st : RawStore) : List User :=
  match pU (jsOrEmpty st.usersRaw) with
  | some us => us
  | none => []

/-- Insertion into a list already sorted by descending timestamp,
modelling the comparator `(a, b) => b.timestamp - a.timestamp`. -/
def insertTsDesc (s : SessionResult) : List SessionResult → List SessionResult
  | [] => [s]
  | t :: ts => if s.timestamp ≥ t.timestamp then s :: t :: ts else t :: insertTsDesc s ts

/-- The sort `sessions.sort((a, b) => b.timestamp - a.timestamp)` as an
insertion sort. -/
def sortTsDesc (l : List SessionResult) : List SessionResult :=
  l.foldr insertTsDesc []

/-- Operation `storage.getUserSessions` (lines 162-169): parse, filter by
`userId`, sort by timestamp descending; a parse failure is caught and
yields `[]`. -/
def getUserSessions (pS : String → Option (List SessionResult)) (st : RawStore)
    (userId : String) : List SessionResult :=
  match pS (jsOrEmpty st.sessionsRaw) with
  | some ss => sortTsDesc (ss.filter fun s => decide (s.userId = userId))
  | none => []

/-- The parsed sessions collection (`[]` when absent or malformed);
used to state properties of the stored sessions. -/
def sessionsOf (pS : String → Option (List SessionResult)) (st : RawStore) :
    List SessionResult :=
  (pS (jsOrEmpty st.sessionsRaw)).getD []

/-- Operation `storage.getAllData` (lines 171-176):`{ users: storage.getUsers(),
sessions: JSON.parse(localStorage.getItem(SESSIONS_KEY) || '[]') }`.
The sessions parse is NOT wrapped in try/catch, so a parse failure
propagates out of `getAllData` (`none`). -/
def getAllData (pU : String → Option (List User))
    (pS : String → Option (List SessionResult)) (st : RawStore) :
    Option (List User × List SessionResult) :=
  match pS (jsOrEmpty st.sessionsRaw) with
  | some ss => some (getUsers pU st, ss)
  | none => none

/-- Operation `storage.deleteUser` (lines 137-150): inside one try block, first
filter the user out of `getUsers()` and write the result back
(`sU` models `JSON.stringify`), then parse the sessions, filter out
that user's sessions and write them back. If the sessions parse
throws, the catch leaves the sessions entry as it was — the users
entry has already been rewritten. -/
def deleteUser (pU : String → Option (List User))
    (pS : String → Option (List SessionResult))
    (sU : List User → String) (sS : List SessionResult → String)
    (st : RawStore) (userId : String) : RawStore :=
  let users := (getUsers pU st).filter fun u => decide (u.id ≠ userId)
  match pS (jsOrEmpty st.sessionsRaw) with
  | some ss =>
      { usersRaw := some (sU users)
        sessionsRaw := some (sS (ss.filter fun s => decide (s.userId ≠ userId))) }
  | none => { usersRaw := some (sU users), sessionsRaw := st.sessionsRaw }

/-- Operation `storage.importData` (lines 178-185): a payload passing the shape
check (`data && Array.isArray(data.users) && Array.isArray(data.sessions)`,
modelled as `some (us, ss)`) overwrites both entries and returns
`true`; anything else is rejected with `false`. -/
def importData (sU : List User → String) (sS : List SessionResult → String)
    (st : RawStore) (data : Option (List User × List SessionResult)) :
    RawStore × Bool :=
  match data with
  | some (us, ss) => ({ usersRaw := some (sU us), sessionsRaw := some (sS ss) }, true)
  | none => (st, false)

/-- Concrete user fixture. -/
def userA : User := { id := "u1", name := "A", createdAt := 0 }

/-- Concrete user fixture. -/
def userB : User := { id := "u2", name := "B", createdAt := 0 }

/-- Concrete session fixture owned by `userA`. -/
def sessA : SessionResult :=
  { id := "s1", userId := "u1", moduleId := "SACC", timestamp := 5, durationSeconds := 10
    level := 3, correctCount := 2, errorCount := 1, totalTrials := 3
    averageReactionTimeMs := 0 }

/-- Concrete session fixture owned by `userB`. -/
def sessB : SessionResult :=
  { id := "s2", userId := "u2", moduleId := "REAK", timestamp := 7, durationSeconds := 10
    level := 1, correctCount := 1, errorCount := 0, totalTrials := 1
    averageReactionTimeMs := 0 }

/-- A concrete instance of `JSON.parse` at the users type, defined on
the handful of strings the witnesses store. -/
def parseUc : String → Option (List User) := fun s =>
  if s = "[]" then some []
  else if s = "US" then some [userA, userB]
  else if s = "USB" then some [userB]
  else none

/-- A concrete instance of `JSON.stringify` at the users type,
inverse to `parseUc` on the lists that occur in the witnesses. -/
def strUc : List User → String := fun l =>
  if l = [] then "[]" else if l = [userA, userB] then "US" else if l = [userB] then "USB" else "??"

/-- A concrete instance of `JSON.parse` at the sessions type. -/
def parseSc : String → Option (List SessionResult) := fun s =>
  if s = "[]" then some []
  else if s = "SS" then some [sessA, sessB]
  else if s = "SSB" then some [sessB]
  else none

/-- A concrete instance of `JSON.stringify` at the sessions type,
inverse to `parseSc` on the lists that occur in the witnesses. -/
def strSc : List SessionResult → String := fun l =>
  if l = [] then "[]" else if l = [sessA, sessB] then "SS" else if l = [sessB] then "SSB" else "??"

/-- A stored state with two users and one session each. -/
def storeC : RawStore := { usersRaw := some "US", sessionsRaw := some "SS" }

/-- A stored state whose sessions entry does not parse. -/
def storeBad : RawStore := { usersRaw := some "US", sessionsRaw := some "corrupt" }

/-- A `JSON.parse` instance that fails on every input, modelling a
users entry that never parses. -/
def parseNoneU : String → Option (List User) := fun _ => none

/-- The session-state invariant of claim C6: the trial counter is the
sum of the correct and error counters, and the level never drops
below 1. (`score ≥ 0` and `errors ≥ 0` hold by the `Nat` typing.) -/
def gInv (g : GameState) : Prop :=
  g.trials = g.score + g.errors ∧ 1 ≤ g.level

theorem foldl_add_eq_sum (l : List ℚ) : ∀ a : ℚ, l.foldl (· + ·) a = a + l.sum := by
  induction l with
  | nil => intro a; simp
  | cons x xs ih => intro a; simp [ih, List.sum_cons]; ring

/-- C10: for every module session, the reported `averageReactionTimeMs`
equals the arithmetic mean of the collected reaction times (`0` when
none were collected) — in particular `[]` yields `0` and
`[100, 200, 300]` yields `200` — and `level`, `score`, `errors`,
`trials` are copied verbatim from the final session state. -/
theorem finishSession_reports_mean (gs : GameState) (rts : List ℚ) :
    (reakFinishSession gs rts).averageReactionTimeMs = (if rts = [] then 0 else listMean rts) ∧
    (saccFinishSession gs rts).averageReactionTimeMs = (if rts = [] then 0 else listMean rts) ∧
    (reakFinishSession gs rts).level = gs.level ∧
    (reakFinishSession gs rts).correctCount = gs.score ∧
    (reakFinishSession gs rts).errorCount = gs.errors ∧
    (reakFinishSession gs rts).totalTrials = gs.trials ∧
    (saccFinishSession gs rts).level = gs.level ∧
    (saccFinishSession gs rts).correctCount = gs.score ∧
    (saccFinishSession gs rts).errorCount = gs.errors ∧
    (saccFinishSession gs rts).totalTrials = gs.trials ∧
    (reakFinishSession gs [(100 : ℚ), 200, 300]).averageReactionTimeMs = 200 ∧
    (reakFinishSession gs ([] : List ℚ)).averageReactionTimeMs = 0 := by
  have hmean : ∀ l : List ℚ,
      (if 0 < l.length then l.foldl (· + ·) 0 / (l.length : ℚ) else 0) =
        (if l = [] then 0 else listMean l) := by
    intro l
    cases l with
    | nil => simp
    | cons x xs => simp [listMean, foldl_add_eq_sum]
  refine ⟨?_, ?_, rfl, rfl, rfl, rfl, rfl, rfl, rfl, rfl, ?_, rfl⟩
  · simpa [reakFinishSession] using hmean rts
  · simpa [saccFinishSession, reakFinishSession] using hmean rts
  · simp [reakFinishSession]
    norm_num

/-- C9: importing a snapshot consisting of a users array and a sessions
array and then exporting with `getAllData` yields exactly the same two
arrays, provided `JSON.parse` inverts `JSON.stringify` on them (and the
serialised strings are non-empty, as stringified arrays always are). -/
theorem importData_roundTrip (pU : String → Option (List User))
    (pS : String → Option (List SessionResult))
    (sU : List User → String) (sS : List SessionResult → String)
    (st : RawStore) (us : List User) (ss : List SessionResult)
    (hu : pU (sU us) = some us) (hs : pS (sS ss) = some ss)
    (hu0 : sU us ≠ "") (hs0 : sS ss ≠ "") :
    getAllData pU pS (importData sU sS st (some (us, ss))).1 = some (us, ss) ∧
    (importData sU sS st (some (us, ss))).2 = true := by
  refine ⟨?_, rfl⟩
  simp [importData, getAllData, getUsers, jsOrEmpty, hu0, hs0, hu, hs]

/-- Witness for C9: a concrete one-user, one-session snapshot
round-trips through `importData` / `getAllData`. -/
theorem importData_roundTrip_witness :
    getAllData parseUc parseSc
        (importData strUc strSc storeBad (some ([userB], [sessB]))).1 =
      some ([userB], [sessB]) ∧
    (importData strUc strSc storeBad (some ([userB], [sessB]))).2 = true :=
  importData_roundTrip parseUc parseSc strUc strSc storeBad [userB] [sessB]
    (by decide) (by decide) (by decide) (by decide)

/-- C8: `deleteUser u1` removes the user with id `u1` and every session
whose `userId` is `u1`, and keeps every other user and every other
user's session, stated as a membership characterisation of the stored
collections after the call. The two hypotheses say that `JSON.parse`
inverts `JSON.stringify` on the two filtered collections the operation
writes back. -/
theorem deleteUser_cascades (pU : String → Option (List User))
    (pS : String → Option (List SessionResult))
    (sU : List User → String) (sS : List SessionResult → String)
    (st : RawStore) (uid : String)
    (hu : pU (jsOrEmpty (some (sU ((getUsers pU st).filter fun u => decide (u.id ≠ uid))))) =
      some ((getUsers pU st).filter fun u => decide (u.id ≠ uid)))
    (hs : pS (jsOrEmpty (some (sS ((sessionsOf pS st).filter fun s => decide (s.userId ≠ uid))))) =
      some ((sessionsOf pS st).filter fun s => decide (s.userId ≠ uid))) :
    (∀ u, u ∈ getUsers pU (deleteUser pU pS sU sS st uid) ↔
      u ∈ getUsers pU st ∧ u.id ≠ uid) ∧
    (∀ s, s ∈ sessionsOf pS (deleteUser pU pS sU sS st uid) ↔
      s ∈ sessionsOf pS st ∧ s.userId ≠ uid) := by
  have husers : getUsers pU (deleteUser pU pS sU sS st uid) =
      (getUsers pU st).filter fun u => decide (u.id ≠ uid) := by
    unfold deleteUser
    cases hps : pS (jsOrEmpty st.sessionsRaw) with
    | none =>
        show getUsers pU { usersRaw := _, sessionsRaw := _ } = _
        unfold getUsers at hu ⊢
        exact hu ▸ rfl
    | some ss =>
        show getUsers pU { usersRaw := _, sessionsRaw := _ } = _
        unfold getUsers at hu ⊢
        exact hu ▸ rfl
  constructor
  · intro u
    rw [husers, List.mem_filter]
    simp
  · intro s
    unfold deleteUser
    cases hps : pS (jsOrEmpty st.sessionsRaw) with
    | none =>
        show s ∈ sessionsOf pS { usersRaw := _, sessionsRaw := st.sessionsRaw } ↔ _
        unfold sessionsOf at *
        rw [hps]
        simp
    | some ss =>
        have hsess : sessionsOf pS st = ss := by unfold sessionsOf; rw [hps]; rfl
        rw [hsess] at hs
        show s ∈ sessionsOf pS { usersRaw := _, sessionsRaw := _ } ↔ _
        unfold sessionsOf
        rw [hps, hs]
        simp only [Option.getD_some]
        rw [List.mem_filter]
        simp

/-- Witness for C8: deleting `"u1"` from the concrete two-user store
keeps `userB` and `sessB` and removes `sessA` (owned by `"u1"`). -/
theorem deleteUser_cascades_witness :
    (userB ∈ getUsers parseUc (deleteUser parseUc parseSc strUc strSc storeC "u1") ↔
      userB ∈ getUsers parseUc storeC ∧ userB.id ≠ "u1") ∧
    (sessA ∈ sessionsOf parseSc (deleteUser parseUc parseSc strUc strSc storeC "u1") ↔
      sessA ∈ sessionsOf parseSc storeC ∧ sessA.userId ≠ "u1") :=
  ⟨(deleteUser_cascades parseUc parseSc strUc strSc storeC "u1"
      (by decide) (by decide)).1 userB,
   (deleteUser_cascades parseUc parseSc strUc strSc storeC "u1"
      (by decide) (by decide)).2 sessA⟩

/-- C7 (amended): `getUsers` and `getUserSessions` catch a JSON parse
failure of their stored collection and return the empty collection;
`getAllData` returns an empty users collection when the stored users
fail to parse, but a parse failure of the stored sessions propagates
out of `getAllData` (there is no try/catch around that parse). -/
theorem storage_parse_recovery (pU : String → Option (List User))
    (pS : String → Option (List SessionResult)) (st : RawStore) (uid : String) :
    (pU (jsOrEmpty st.usersRaw) = none → getUsers pU st = []) ∧
    (pS (jsOrEmpty st.sessionsRaw) = none → getUserSessions pS st uid = []) ∧
    (pS (jsOrEmpty st.sessionsRaw) = none → getAllData pU pS st = none) ∧
    (∀ ss, pU (jsOrEmpty st.usersRaw) = none → pS (jsOrEmpty st.sessionsRaw) = some ss →
      getAllData pU pS st = some ([], ss)) := by
  refine ⟨?_, ?_, ?_, ?_⟩
  · intro h; simp [getUsers, h]
  · intro h; simp [getUserSessions, h]
  · intro h; simp [getAllData, h]
  · intro ss h1 h2; simp [getAllData, getUsers, h1, h2]

/-- Witness for C7: on concrete malformed entries, the two guarded
reads return `[]` and `getAllData` propagates the sessions failure. -/
theorem storage_parse_recovery_witness :
    getUsers parseNoneU storeC = [] ∧
    getUserSessions parseSc storeBad "u1" = [] ∧
    getAllData parseUc parseSc storeBad = none :=
  ⟨(storage_parse_recovery parseNoneU parseSc storeC "u1").1 rfl,
   (storage_parse_recovery parseNoneU parseSc storeBad "u1").2.1 (by decide),
   (storage_parse_recovery parseUc parseSc storeBad "u1").2.2.1 (by decide)⟩

/-- Counterexample to C7 as stated: on a store whose sessions entry
does not parse, `getAllData` does not return the empty collection —
the parse failure propagates (`none`), unlike `getUsers` and
`getUserSessions`. -/
theorem getAllData_propagates_cex :
    getAllData parseUc parseSc storeBad = none ∧
    getAllData parseUc parseSc storeBad ≠ some (getUsers parseUc storeBad, []) := by
  constructor
  · decide
  · decide

theorem reakCorrectUpdate_inv {g : GameState} (h : gInv g) : gInv (reakCorrectUpdate g) := by
  obtain ⟨h1, h2⟩ := h
  constructor
  · simp [reakCorrectUpdate]; omega
  · simp only [reakCorrectUpdate]
    split <;> omega

theorem reakErrorUpdate_inv {g : GameState} (h : gInv g) : gInv (reakErrorUpdate g) := by
  obtain ⟨h1, h2⟩ := h
  exact ⟨by simp [reakErrorUpdate]; omega, by simpa [reakErrorUpdate] using h2⟩

theorem nbackCorrectUpdate_inv {g : GameState} (h : gInv g) : gInv (nbackCorrectUpdate g) := by
  obtain ⟨h1, h2⟩ := h
  constructor
  · simp [nbackCorrectUpdate]; omega
  · simp only [nbackCorrectUpdate]
    split <;> omega

theorem nbackErrorUpdate_inv {g : GameState} (h : gInv g) : gInv (nbackErrorUpdate g) := by
  obtain ⟨h1, h2⟩ := h
  exact ⟨by simp [nbackErrorUpdate]; omega, by simpa [nbackErrorUpdate] using h2⟩

theorem saccApply_inv {g : GameState} (c : Bool) (h : gInv g) : gInv (saccApply g c) := by
  obtain ⟨h1, h2⟩ := h
  cases c with
  | true =>
      show gInv (saccCorrectUpdate g)
      constructor
      · simp [saccCorrectUpdate]; omega
      · simp only [saccCorrectUpdate]
        split <;> omega
  | false =>
      show gInv (saccErrorUpdate g)
      constructor
      · simp [saccErrorUpdate]; omega
      · simp only [saccErrorUpdate]
        split <;> omega

theorem gInv_isPausedFlip {g : GameState} (b : Bool) (h : gInv g) :
    gInv { g with isPaused := b } := h

theorem reakStep_inv {s : ReakSt} (e : ReakEv) (h : gInv s.gs) : gInv (reakStep s e).gs := by
  cases e with
  | pauseToggle => exact h
  | goFires => simp only [reakStep]; split <;> exact h
  | missFires =>
      simp only [reakStep]; split
      · exact reakErrorUpdate_inv h
      · exact h
  | fbFires => simp only [reakStep]; split <;> [skip; exact h]; split <;> exact h
  | press =>
      simp only [reakStep]; split
      · exact h
      · cases hs : s.status <;> simp only
        · exact reakErrorUpdate_inv h
        · exact h
        · exact reakCorrectUpdate_inv h
        · exact h

theorem reakRun_inv (evs : List ReakEv) : ∀ s : ReakSt, gInv s.gs → gInv (reakRun s evs).gs := by
  induction evs with
  | nil => intro s h; exact h
  | cons e evs ih => intro s h; exact ih (reakStep s e) (reakStep_inv e h)

theorem startBlankPhase_inv {s : NbSt} (h : gInv s.gs) : gInv (startBlankPhase s).gs := by
  unfold startBlankPhase
  split
  · show gInv (if _ then nbackErrorUpdate s.gs else s.gs)
    split
    · exact nbackErrorUpdate_inv h
    · exact h
  · exact h

theorem nbStep_inv {s : NbSt} (e : NbEv) (h : gInv s.gs) : gInv (nbStep s e).gs := by
  cases e with
  | press =>
      simp only [nbStep]; split
      · exact h
      · split
        · exact nbackCorrectUpdate_inv h
        · exact nbackErrorUpdate_inv h
  | displayFires =>
      simp only [nbStep]; split
      · exact startBlankPhase_inv h
      · exact h
  | blankFires next isM =>
      simp only [nbStep]; split <;> [skip; exact h]; split <;> exact h
  | pauseToggle =>
      simp only [nbStep]
      split
      · split
        · exact startBlankPhase_inv h
        · exact h
      · exact h

theorem nbRun_inv (evs : List NbEv) : ∀ s : NbSt, gInv s.gs → gInv (nbRun s evs).gs := by
  induction evs with
  | nil => intro s h; exact h
  | cons e evs ih => intro s h; exact ih (nbStep s e) (nbStep_inv e h)

theorem saccFoldl_inv (evs : List Bool) : ∀ g : GameState, gInv g → gInv (evs.foldl saccApply g) := by
  induction evs with
  | nil => intro g h; exact h
  | cons c evs ih => intro g h; exact ih (saccApply g c) (saccApply_inv c h)

/-- C6: every session state reachable from the initial state
`{level: 1, score: 0, errors: 0, trials: 0}` by any sequence of
event-loop events (Reak, Nback) or trial outcomes (Sacc) satisfies
`trials = score + errors` and `level ≥ 1` (nonnegativity of the
counters holds by typing), and hence the reported result satisfies
`totalTrials = correctCount + errorCount`. -/
theorem session_state_invariant (evsR : List ReakEv) (evsN : List NbEv)
    (evsS : List Bool) (rts : List ℚ) :
    gInv (reakRun initReakSt evsR).gs ∧
    gInv (nbRun initNbSt evsN).gs ∧
    gInv (evsS.foldl saccApply initGameState) ∧
    (reakFinishSession (reakRun initReakSt evsR).gs rts).totalTrials =
      (reakFinishSession (reakRun initReakSt evsR).gs rts).correctCount +
        (reakFinishSession (reakRun initReakSt evsR).gs rts).errorCount ∧
    (saccFinishSession (evsS.foldl saccApply initGameState) rts).totalTrials =
      (saccFinishSession (evsS.foldl saccApply initGameState) rts).correctCount +
        (saccFinishSession (evsS.foldl saccApply initGameState) rts).errorCount := by
  have h0 : gInv initGameState := ⟨rfl, le_refl 1⟩
  have hR : gInv (reakRun initReakSt evsR).gs := reakRun_inv evsR initReakSt h0
  have hN : gInv (nbRun initNbSt evsN).gs := nbRun_inv evsN initNbSt h0
  have hS : gInv (evsS.foldl saccApply initGameState) := saccFoldl_inv evsS initGameState h0
  refine ⟨hR, hN, hS, ?_, ?_⟩
  · simpa [reakFinishSession] using hR.1
  · simpa [saccFinishSession, reakFinishSession] using hS.1

theorem reakCorrectIter (n : Nat) :
    (reakCorrectUpdate^[n] initGameState).score = n ∧
    (reakCorrectUpdate^[n] initGameState).level = 1 + (n - 1) / 5 := by
  induction n with
  | zero => exact ⟨rfl, rfl⟩
  | succ n ih =>
      obtain ⟨hs, hl⟩ := ih
      rw [Function.iterate_succ_apply']
      constructor
      · simp [reakCorrectUpdate, hs]
      · simp only [reakCorrectUpdate, hs, hl]
        split <;> rename_i hc <;> omega

theorem nbackCorrectIter (n : Nat) :
    (nbackCorrectUpdate^[n] initGameState).score = n ∧
    (nbackCorrectUpdate^[n] initGameState).level = min 20 (1 + (n - 1) / 5) := by
  induction n with
  | zero => exact ⟨rfl, rfl⟩
  | succ n ih =>
      obtain ⟨hs, hl⟩ := ih
      rw [Function.iterate_succ_apply']
      constructor
      · simp [nbackCorrectUpdate, hs]
      · simp only [nbackCorrectUpdate, hs, hl]
        split <;> rename_i hc <;> omega

theorem saccCorrectIter (n : Nat) :
    (saccCorrectUpdate^[n] initGameState).score = n ∧
    (saccCorrectUpdate^[n] initGameState).level = min 30 (1 + n / 3) := by
  induction n with
  | zero => exact ⟨rfl, rfl⟩
  | succ n ih =>
      obtain ⟨hs, hl⟩ := ih
      rw [Function.iterate_succ_apply']
      constructor
      · simp [saccCorrectUpdate, hs]
      · simp only [saccCorrectUpdate, hs, hl]
        split <;> rename_i hc <;> omega

/-- C5 (amended): a correct outcome increments `score` and `trials` by
exactly 1 in every module; starting from the initial state, after `n`
consecutive correct answers the level is `1 + (n-1)/5` in Reak
(uncapped) and `min 20 (1 + (n-1)/5)` in Nback — i.e. the level rises
on the 6th, 11th, 16th, ... correct answer (when the score before the
increment is a positive multiple of 5), not on the 5th — while in Sacc
it is `min 30 (1 + n/3)`, i.e. the level rises on every 3rd correct
answer, capped at 30. -/
theorem level_rule_characterisation (g : GameState) (n : Nat) :
    ((reakCorrectUpdate g).score = g.score + 1 ∧ (reakCorrectUpdate g).trials = g.trials + 1) ∧
    ((nbackCorrectUpdate g).score = g.score + 1 ∧ (nbackCorrectUpdate g).trials = g.trials + 1) ∧
    ((saccCorrectUpdate g).score = g.score + 1 ∧ (saccCorrectUpdate g).trials = g.trials + 1) ∧
    (reakCorrectUpdate^[n] initGameState).score = n ∧
    (reakCorrectUpdate^[n] initGameState).level = 1 + (n - 1) / 5 ∧
    (nbackCorrectUpdate^[n] initGameState).level = min 20 (1 + (n - 1) / 5) ∧
    (saccCorrectUpdate^[n] initGameState).level = min 30 (1 + n / 3) :=
  ⟨⟨rfl, rfl⟩, ⟨rfl, rfl⟩, ⟨rfl, rfl⟩, (reakCorrectIter n).1, (reakCorrectIter n).2,
    (nbackCorrectIter n).2, (saccCorrectIter n).2⟩

/-- Counterexample to C5 as stated: after the 5th consecutive correct
answer in Reak the level has NOT incremented (it is still 1, not 2),
because the source tests `prev.score % 5 === 0` on the score before
the increment; the first level-up happens on the 6th correct answer. -/
theorem level_rule_fifth_cex :
    (reakCorrectUpdate^[5] initGameState).score = 5 ∧
    (reakCorrectUpdate^[5] initGameState).level ≠ 2 ∧
    (reakCorrectUpdate^[5] initGameState).level = 1 ∧
    (reakCorrectUpdate^[6] initGameState).level = 2 := by
  refine ⟨?_, ?_, ?_, ?_⟩ <;> decide

theorem saccFindD_not_collide (rng : Nat → Nat × Nat) (tgt : Nat × Nat) :
    ∀ f i p i', saccFindD rng tgt f i = some (p, i') → ¬(p.1 = tgt.1 ∧ p.2 = tgt.2) := by
  intro f
  induction f with
  | zero => intro i p i' h; exact absurd h (by simp [saccFindD])
  | succ f ih =>
      intro i p i' h
      rw [saccFindD] at h
      split at h
      · exact ih (i + 1) p i' h
      · rename_i hc
        obtain ⟨hp, _⟩ := Option.some.injEq _ _ ▸ h
        cases h
        exact hc

theorem saccDistractors_not_collide (rng : Nat → Nat × Nat) (tgt : Nat × Nat) (f : Nat) :
    ∀ c i ds, saccDistractors rng tgt f c i = some ds →
      ∀ p ∈ ds, ¬(p.1 = tgt.1 ∧ p.2 = tgt.2) := by
  intro c
  induction c with
  | zero =>
      intro i ds h p hp
      simp [saccDistractors] at h
      subst h
      cases hp
  | succ c ih =>
      intro i ds h p hp
      rw [saccDistractors] at h
      cases hf : saccFindD rng tgt f i with
      | none => rw [hf] at h; cases h
      | some r =>
          obtain ⟨q, i2⟩ := r
          rw [hf] at h
          dsimp only at h
          cases hd : saccDistractors rng tgt f c i2 with
          | none => rw [hd] at h; cases h
          | some ps =>
              rw [hd] at h
              dsimp only at h
              cases h
              cases hp with
              | head => exact saccFindD_not_collide rng tgt f i _ i2 hf
              | tail _ hmem => exact ih i2 ps hd p hmem

theorem nbackGo_first_valid (rng : Nat → Nat) (h : List Nat) (n : Nat) :
    ∀ f i, (∃ j, i ≤ j ∧ j < i + f ∧ nbackValid h n (rng j) = true) →
      nbackValid h n (nbackGo rng h n i f) = true := by
  intro f
  induction f with
  | zero => intro i hj; obtain ⟨j, h1, h2, _⟩ := hj; omega
  | succ f ih =>
      intro i hj
      rw [nbackGo]
      split
      · assumption
      · rename_i hinv
        split
        · rename_i hf0
          obtain ⟨j, h1, h2, h3⟩ := hj
          subst hf0
          have : j = i := by omega
          subst this
          exact absurd h3 (by simp [hinv])
        · apply ih (i + 1)
          obtain ⟨j, h1, h2, h3⟩ := hj
          rcases Nat.eq_or_lt_of_le h1 with heq | hlt
          · subst heq; exact absurd h3 (by simp [hinv])
          · exact ⟨j, hlt, by omega, h3⟩

theorem nbackValid_ne_target (h : List Nat) (n r : Nat)
    (hv : nbackValid h n r = true) (hn : n ≤ h.length) :
    r ≠ h.getD (h.length - n) 0 := by
  intro hr
  rw [nbackValid] at hv
  simp only [Bool.and_eq_true, Bool.not_eq_true'] at hv
  have := hv.1
  simp [hn, hr] at this

/-- C2 (amended): every Sacc distractor whose rejection loop returned
differs from the target in shape or colour, unconditionally; in Nback,
the stimulus produced by the non-match branch differs from the item N
positions back whenever some draw among the 10 bounded attempts is
valid — but only then, since after 10 failed attempts the loop exits
with the last (possibly colliding) draw. -/
theorem distractors_distinct (rng1 : Nat → Nat × Nat) (tgt : Nat × Nat) (numItems f : Nat)
    (items : List SaccItem) (hgen : saccGenTrial rng1 tgt numItems f = some items)
    (rng2 : Nat → Nat) (h : List Nat) (n : Nat)
    (hvalid : ∃ i, i < 10 ∧ nbackValid h n (rng2 i) = true) :
    (∀ it ∈ items, it.isTarget = false → ¬(it.shapeIdx = tgt.1 ∧ it.colorIdx = tgt.2)) ∧
    nbackValid h n (nbackSample rng2 h n) = true ∧
    (n ≤ h.length → nbackSample rng2 h n ≠ h.getD (h.length - n) 0) := by
  have hnb : nbackValid h n (nbackSample rng2 h n) = true := by
    apply nbackGo_first_valid rng2 h n 10 0
    obtain ⟨i, h1, h2⟩ := hvalid
    exact ⟨i, by omega, by omega, h2⟩
  refine ⟨?_, hnb, fun hn => nbackValid_ne_target h n _ hnb hn⟩
  intro it hmem htgt
  rw [saccGenTrial] at hgen
  cases hd : saccDistractors rng1 tgt f (numItems - 1) 0 with
  | none => rw [hd] at hgen; cases hgen
  | some ds =>
      rw [hd] at hgen
      cases hgen
      cases hmem with
      | head => cases htgt
      | tail _ hmem2 =>
          obtain ⟨p, hp, rfl⟩ := List.mem_map.mp hmem2
          exact saccDistractors_not_collide rng1 tgt f (numItems - 1) 0 ds hd p hp

/-- Witness for C2: a concrete trial with one distractor produced by a
stream disjoint from the target, and a concrete Nback history where
the first draw is already valid. -/
theorem distractors_distinct_witness :
    (∀ it ∈ [SaccItem.mk 0 0 true, SaccItem.mk 1 0 false], it.isTarget = false →
      ¬(it.shapeIdx = 0 ∧ it.colorIdx = 0)) ∧
    nbackValid [5] 1 (nbackSample (fun i => i) [5] 1) = true ∧
    (1 ≤ [5].length → nbackSample (fun i => i) [5] 1 ≠ [5].getD ([5].length - 1) 0) :=
  distractors_distinct (fun i => (i + 1, 0)) (0, 0) 2 5
    [SaccItem.mk 0 0 true, SaccItem.mk 1 0 false] (by decide)
    (fun i => i) [5] 1 ⟨0, by decide, by decide⟩

/-- Counterexample to C2 as stated: with history `[3]` and `n = 1`, a
random source that returns `3` on all 10 bounded attempts makes the
non-match branch emit `3`, which EQUALS the item one position back —
the "Safety break" exits with the last, still-colliding draw. -/
theorem nback_nonmatch_collision_cex :
    nbackSample (fun _ => 3) [3] 1 = [3].getD ([3].length - 1) 0 ∧
    nbackValid [3] 1 (nbackSample (fun _ => 3) [3] 1) = false := by
  constructor
  · decide
  · decide

theorem nbackGo_is_draw (rng : Nat → Nat) (h : List Nat) (n : Nat) :
    ∀ f i, f ≠ 0 → ∃ j, i ≤ j ∧ j < i + f ∧ nbackGo rng h n i f = rng j := by
  intro f
  induction f with
  | zero => intro i h0; exact absurd rfl h0
  | succ f ih =>
      intro i _
      rw [nbackGo]
      split
      · exact ⟨i, le_refl i, by omega, rfl⟩
      · split
        · exact ⟨i, le_refl i, by omega, rfl⟩
        · rename_i hf0
          obtain ⟨j, h1, h2, h3⟩ := ih (i + 1) hf0
          exact ⟨j, by omega, by omega, h3⟩

theorem corsiSampleXY_bounds (rng : Nat → ℚ × ℚ)
    (hb : ∀ i, 0 ≤ (rng i).1 ∧ (rng i).1 < 1 ∧ 0 ≤ (rng i).2 ∧ (rng i).2 < 1) (i : Nat) :
    10 ≤ (corsiSampleXY rng i).1 ∧ (corsiSampleXY rng i).1 < 90 ∧
      10 ≤ (corsiSampleXY rng i).2 ∧ (corsiSampleXY rng i).2 < 90 := by
  obtain ⟨h1, h2, h3, h4⟩ := hb i
  unfold corsiSampleXY
  refine ⟨?_, ?_, ?_, ?_⟩ <;> simp only
  · nlinarith
  · nlinarith
  · nlinarith
  · nlinarith

theorem corsiTryPlace_is_sample (rng : Nat → ℚ × ℚ) (blocks : List (ℚ × ℚ)) :
    ∀ f i, ∃ j, (corsiTryPlace rng blocks i f).1 = corsiSampleXY rng j := by
  intro f
  induction f with
  | zero => intro i; exact ⟨i, rfl⟩
  | succ f ih =>
      intro i
      rw [corsiTryPlace]
      split
      · exact ⟨i, rfl⟩
      · split
        · exact ⟨i, rfl⟩
        · exact ih (i + 1)

theorem corsiPlace_length (rng : Nat → ℚ × ℚ) :
    ∀ k i acc, (corsiPlace rng k i acc).length = acc.length + k := by
  intro k
  induction k with
  | zero => intro i acc; simp [corsiPlace]
  | succ k ih =>
      intro i acc
      rw [corsiPlace, ih]
      simp
      omega

theorem corsiPlace_bounds (rng : Nat → ℚ × ℚ)
    (hb : ∀ i, 0 ≤ (rng i).1 ∧ (rng i).1 < 1 ∧ 0 ≤ (rng i).2 ∧ (rng i).2 < 1) :
    ∀ k i acc,
      (∀ p ∈ acc, 10 ≤ p.1 ∧ p.1 < 90 ∧ 10 ≤ p.2 ∧ p.2 < 90) →
      ∀ p ∈ corsiPlace rng k i acc, 10 ≤ p.1 ∧ p.1 < 90 ∧ 10 ≤ p.2 ∧ p.2 < 90 := by
  intro k
  induction k with
  | zero => intro i acc hacc p hp; exact hacc p hp
  | succ k ih =>
      intro i acc hacc p hp
      rw [corsiPlace] at hp
      refine ih _ _ ?_ p hp
      intro q hq
      rcases List.mem_append.mp hq with hq1 | hq2
      · exact hacc q hq1
      · have hq3 : q = (corsiTryPlace rng acc i 100).1 := by
          simpa using hq2
        obtain ⟨j, hj⟩ := corsiTryPlace_is_sample rng acc 100 i
        rw [hq3, hj]
        exact corsiSampleXY_bounds rng hb j

theorem saccFindD_none_iff (rng : Nat → Nat × Nat) (tgt : Nat × Nat) :
    ∀ f i, saccFindD rng tgt f i = none ↔
      ∀ j, i ≤ j → j < i + f → (rng j).1 = tgt.1 ∧ (rng j).2 = tgt.2 := by
  intro f
  induction f with
  | zero =>
      intro i
      constructor
      · intro _ j h1 h2; omega
      · intro _; rfl
  | succ f ih =>
      intro i
      rw [saccFindD]
      split
      · rename_i hc
        rw [ih (i + 1)]
        constructor
        · intro hall j h1 h2
          rcases Nat.eq_or_lt_of_le h1 with heq | hlt
          · subst heq; exact hc
          · exact hall j hlt (by omega)
        · intro hall j h1 h2
          exact hall j (by omega) (by omega)
      · rename_i hc
        constructor
        · intro hnone; cases hnone
        · intro hall
          exact absurd (hall i (le_refl i) (by omega)) hc

/-- C4 (amended): Nback's rejection sampling is bounded by 10 attempts
and always returns one of the first 10 draws (a trial is always
produced, possibly a degenerate one); Corsi's block placement is
bounded by 100 attempts per block and, for every random stream in
`[0,1)`, always yields exactly 9 blocks inside the 10–90% region;
but Sacc's distractor loop has NO retry bound: it fails to produce a
distractor within a bound `f` exactly when the first `f` draws all
collide with the target, so a random source that keeps returning the
target's shape and colour makes it run forever. -/
theorem generator_termination (rngN : Nat → Nat) (h : List Nat) (n : Nat)
    (rngQ : Nat → ℚ × ℚ)
    (hb : ∀ i, 0 ≤ (rngQ i).1 ∧ (rngQ i).1 < 1 ∧ 0 ≤ (rngQ i).2 ∧ (rngQ i).2 < 1)
    (rngS : Nat → Nat × Nat) (tgt : Nat × Nat) (f : Nat) :
    (∃ j, j < 10 ∧ nbackSample rngN h n = rngN j) ∧
    (corsiBlocks rngQ).length = 9 ∧
    (∀ p ∈ corsiBlocks rngQ, 10 ≤ p.1 ∧ p.1 < 90 ∧ 10 ≤ p.2 ∧ p.2 < 90) ∧
    (saccFindD rngS tgt f 0 = none ↔
      ∀ j, j < f → (rngS j).1 = tgt.1 ∧ (rngS j).2 = tgt.2) := by
  refine ⟨?_, ?_, ?_, ?_⟩
  · obtain ⟨j, h1, h2, h3⟩ := nbackGo_is_draw rngN h n 10 0 (by omega)
    exact ⟨j, by omega, h3⟩
  · simpa using corsiPlace_length rngQ 9 0 []
  · exact corsiPlace_bounds rngQ hb 9 0 [] (by intro p hp; cases hp)
  · rw [saccFindD_none_iff rngS tgt f 0]
    constructor
    · intro hall j hj; exact hall j (by omega) (by omega)
    · intro hall j _ hj; exact hall j (by omega)

/-- Witness for C4: the Corsi placement run on the constant stream
`(1/2, 1/2)` yields exactly nine blocks. -/
theorem generator_termination_witness :
    (corsiBlocks fun _ => ((1 : ℚ) / 2, (1 : ℚ) / 2)).length = 9 :=
  (generator_termination (fun j => j) [] 1 (fun _ => ((1 : ℚ) / 2, (1 : ℚ) / 2))
    (by intro i; norm_num) (fun _ => (0, 0)) (0, 0) 3).2.1

/-- Counterexample to C4 as stated: Sacc's distractor loop has no
bounded retry count and no fallback — on a random source that always
returns the target's shape/colour pair, even 200 draws (the upper end
of the spec's claimed 10–200 bound) produce no distractor — and by the
`saccFindD_none_iff` characterisation no number of draws ever does. -/
theorem sacc_unbounded_cex :
    saccFindD (fun _ => ((0 : Nat), (0 : Nat))) (0, 0) 200 0 = none := by
  decide

theorem reakRace_frozen (bs : List Bool) : ∀ s : ReakSt,
    s.status = RStatus.feedback → s.missArmed = false → reakRun s (reakRace bs) = s := by
  induction bs with
  | nil => intro s _ _; rfl
  | cons b bs ih =>
      intro s hs hm
      have hstep : reakStep s (if b then ReakEv.press else ReakEv.missFires) = s := by
        cases b
        · show reakStep s ReakEv.missFires = s
          simp [reakStep, hm]
        · show reakStep s ReakEv.press = s
          simp [reakStep, hs]
      show reakRun (reakStep s (if b then ReakEv.press else ReakEv.missFires)) (reakRace bs) = s
      rw [hstep]
      exact ih s hs hm

theorem reak_exactly_one (lv sc er tr : Nat) (b : Bool) (bs : List Bool) :
    (reakRun (mkReakPresented lv sc er tr) (reakRace (b :: bs))).gs.trials = tr + 1 ∧
    (reakRun (mkReakPresented lv sc er tr) (reakRace (b :: bs))).gs.score +
      (reakRun (mkReakPresented lv sc er tr) (reakRace (b :: bs))).gs.errors = sc + er + 1 := by
  cases b
  · -- miss timer first: one miss is recorded, later presses are ignored
    have hall : reakRun (mkReakPresented lv sc er tr) (reakRace (false :: bs)) =
        { gs := reakErrorUpdate
            { level := lv, score := sc, errors := er, trials := tr
              isPlaying := true, isPaused := false }
          status := .feedback, goArmed := false, missArmed := false, fbArmed := true } := by
      show reakRun (reakStep (mkReakPresented lv sc er tr) ReakEv.missFires) (reakRace bs) = _
      exact reakRace_frozen bs _ rfl rfl
    rw [hall]
    exact ⟨rfl, rfl⟩
  · -- press first: one correct outcome is recorded, the miss timer is disarmed
    have hall : reakRun (mkReakPresented lv sc er tr) (reakRace (true :: bs)) =
        { gs := reakCorrectUpdate
            { level := lv, score := sc, errors := er, trials := tr
              isPlaying := true, isPaused := false }
          status := .feedback, goArmed := false, missArmed := false, fbArmed := true } := by
      show reakRun (reakStep (mkReakPresented lv sc er tr) ReakEv.press) (reakRace bs) = _
      exact reakRace_frozen bs _ rfl rfl
    rw [hall]
    constructor
    · rfl
    · show sc + 1 + er = sc + er + 1
      omega

theorem nbRace_frozen (bs : List Bool) : ∀ s : NbSt,
    (s.responded = true ∨ s.icon = none) → (s.isTarget = true → s.responded = true) →
    (nbRun s (nbRace bs)).gs = s.gs := by
  induction bs with
  | nil => intro s _ _; rfl
  | cons b bs ih =>
      intro s hri hti
      show (nbRun (nbStep s (if b then NbEv.press else NbEv.displayFires)) (nbRace bs)).gs = s.gs
      cases b
      · -- display timer fires
        show (nbRun (nbStep s NbEv.displayFires) (nbRace bs)).gs = s.gs
        by_cases ha : s.displayArmed = true
        · have hstep : nbStep s NbEv.displayFires = startBlankPhase { s with displayArmed := false } := by
            simp [nbStep, ha]
          rw [hstep]
          unfold startBlankPhase
          split
          · -- loop guard passes: omission check cannot fire on a frozen trial
            have hcond : ¬(s.isTarget = true ∧ s.responded = false ∧ s.hist ≠ []) := by
              rintro ⟨ht, hr, _⟩
              rw [hti ht] at hr
              cases hr
            rw [if_neg (by simpa using hcond)]
            rw [ih _ (Or.inr rfl) (fun hh => by cases hh)]
          · rw [ih _ (by simpa using hri) (by simpa using hti)]
        · have hstep : nbStep s NbEv.displayFires = s := by
            simp [nbStep, ha]
          rw [hstep]
          exact ih s hri hti
      · -- a further press is ignored
        show (nbRun (nbStep s NbEv.press) (nbRace bs)).gs = s.gs
        have hstep : nbStep s NbEv.press = s := by
          simp only [nbStep]
          rw [if_pos hri]
        rw [hstep]
        exact ih s hri hti


theorem nback_at_most_one (k : Nat) (tgt : Bool) (h : List Nat) (lv sc er tr : Nat)
    (b : Bool) (bs : List Bool) :
    ((nbRun (mkNbPresented k tgt h lv sc er tr) (nbRace (b :: bs))).gs.trials = tr ∨
      (nbRun (mkNbPresented k tgt h lv sc er tr) (nbRace (b :: bs))).gs.trials = tr + 1) ∧
    (nbRun (mkNbPresented k tgt h lv sc er tr) (nbRace (b :: bs))).gs.score +
      (nbRun (mkNbPresented k tgt h lv sc er tr) (nbRace (b :: bs))).gs.errors =
      sc + er + ((nbRun (mkNbPresented k tgt h lv sc er tr) (nbRace (b :: bs))).gs.trials - tr) ∧
    (tgt = true → (nbRun (mkNbPresented k tgt h lv sc er tr) (nbRace (b :: bs))).gs.trials = tr + 1) ∧
    (b = true → (nbRun (mkNbPresented k tgt h lv sc er tr) (nbRace (b :: bs))).gs.trials = tr + 1) := by
  cases b
  · -- the deadline (display timer) is processed first
    cases tgt
    · -- non-match trial: the omission check records nothing
      have hgs : (nbRun (mkNbPresented k false h lv sc er tr) (nbRace (false :: bs))).gs =
          { level := lv, score := sc, errors := er, trials := tr
            isPlaying := true, isPaused := false } := by
        show (nbRun (nbStep (mkNbPresented k false h lv sc er tr) NbEv.displayFires) (nbRace bs)).gs = _
        have hstep : nbStep (mkNbPresented k false h lv sc er tr) NbEv.displayFires =
            { gs := { level := lv, score := sc, errors := er, trials := tr
                      isPlaying := true, isPaused := false }
              icon := none, isTarget := false, responded := false, hist := h ++ [k]
              displayArmed := false, blankArmed := true, loopRunning := true } := rfl
        rw [hstep, nbRace_frozen bs _ (Or.inr rfl) (fun hh => absurd hh Bool.false_ne_true)]
      rw [hgs]
      refine ⟨Or.inl rfl, ?_, ?_, ?_⟩
      · show sc + er = sc + er + (tr - tr)
        omega
      · exact fun hh => absurd hh Bool.false_ne_true
      · exact fun hh => absurd hh Bool.false_ne_true
    · -- target trial: the omission check records exactly one miss
      have hgs : (nbRun (mkNbPresented k true h lv sc er tr) (nbRace (false :: bs))).gs =
          { level := lv, score := sc, errors := er + 1, trials := tr + 1
            isPlaying := true, isPaused := false } := by
        show (nbRun (nbStep (mkNbPresented k true h lv sc er tr) NbEv.displayFires) (nbRace bs)).gs = _
        have hstep : nbStep (mkNbPresented k true h lv sc er tr) NbEv.displayFires =
            { gs := { level := lv, score := sc, errors := er + 1, trials := tr + 1
                      isPlaying := true, isPaused := false }
              icon := none, isTarget := false, responded := false, hist := h ++ [k]
              displayArmed := false, blankArmed := true, loopRunning := true } := by
          show startBlankPhase
              { mkNbPresented k true h lv sc er tr with displayArmed := false } = _
          simp [startBlankPhase, mkNbPresented, nbackErrorUpdate]
        rw [hstep, nbRace_frozen bs _ (Or.inr rfl) (fun hh => absurd hh Bool.false_ne_true)]
      rw [hgs]
      refine ⟨Or.inr rfl, ?_, ?_, ?_⟩
      · show sc + (er + 1) = sc + er + (tr + 1 - tr)
        omega
      · exact fun _ => rfl
      · exact fun hh => absurd hh Bool.false_ne_true
  · -- the user action is processed first
    cases tgt
    · -- wrong press on a non-match: exactly one error
      have hgs : (nbRun (mkNbPresented k false h lv sc er tr) (nbRace (true :: bs))).gs =
          nbackErrorUpdate
            { level := lv, score := sc, errors := er, trials := tr
              isPlaying := true, isPaused := false } := by
        show (nbRun (nbStep (mkNbPresented k false h lv sc er tr) NbEv.press) (nbRace bs)).gs = _
        have hstep : nbStep (mkNbPresented k false h lv sc er tr) NbEv.press =
            { gs := nbackErrorUpdate
                { level := lv, score := sc, errors := er, trials := tr
                  isPlaying := true, isPaused := false }
              icon := some k, isTarget := false, responded := true, hist := h ++ [k]
              displayArmed := true, blankArmed := false, loopRunning := true } := rfl
        rw [hstep, nbRace_frozen bs _ (Or.inl rfl) (fun _ => rfl)]
      rw [hgs]
      refine ⟨Or.inr rfl, ?_, ?_, ?_⟩
      · show sc + (er + 1) = sc + er + (tr + 1 - tr)
        omega
      · exact fun hh => absurd hh Bool.false_ne_true
      · exact fun _ => rfl
    · -- correct press on a match: exactly one score
      have hgs : (nbRun (mkNbPresented k true h lv sc er tr) (nbRace (true :: bs))).gs =
          nbackCorrectUpdate
            { level := lv, score := sc, errors := er, trials := tr
              isPlaying := true, isPaused := false } := by
        show (nbRun (nbStep (mkNbPresented k true h lv sc er tr) NbEv.press) (nbRace bs)).gs = _
        have hstep : nbStep (mkNbPresented k true h lv sc er tr) NbEv.press =
            { gs := nbackCorrectUpdate
                { level := lv, score := sc, errors := er, trials := tr
                  isPlaying := true, isPaused := false }
              icon := some k, isTarget := true, responded := true, hist := h ++ [k]
              displayArmed := true, blankArmed := false, loopRunning := true } := rfl
        rw [hstep, nbRace_frozen bs _ (Or.inl rfl) (fun _ => rfl)]
      rw [hgs]
      refine ⟨Or.inr rfl, ?_, ?_, ?_⟩
      · show sc + 1 + er = sc + er + (tr + 1 - tr)
        omega
      · exact fun _ => rfl
      · exact fun _ => rfl

/-- C1 (amended): in the race between the response deadline and a user
action, at most one outcome is ever recorded per trial — never both —
and a user action processed after the deadline has fired is ignored.
In Reak exactly one of `score+1` / `errors+1` is applied for every
interleaving; in Nback exactly one is applied whenever the trial is a
target or the user action is processed first, but a non-match trial
whose deadline is processed before the user action records neither. -/
theorem trial_single_outcome (lv sc er tr : Nat) (b : Bool) (bs : List Bool)
    (k : Nat) (tgt : Bool) (h : List Nat) (lv2 sc2 er2 tr2 : Nat)
    (b2 : Bool) (bs2 : List Bool) :
    ((reakRun (mkReakPresented lv sc er tr) (reakRace (b :: bs))).gs.trials = tr + 1 ∧
      (reakRun (mkReakPresented lv sc er tr) (reakRace (b :: bs))).gs.score +
        (reakRun (mkReakPresented lv sc er tr) (reakRace (b :: bs))).gs.errors =
        sc + er + 1) ∧
    (((nbRun (mkNbPresented k tgt h lv2 sc2 er2 tr2) (nbRace (b2 :: bs2))).gs.trials = tr2 ∨
        (nbRun (mkNbPresented k tgt h lv2 sc2 er2 tr2) (nbRace (b2 :: bs2))).gs.trials = tr2 + 1) ∧
      (nbRun (mkNbPresented k tgt h lv2 sc2 er2 tr2) (nbRace (b2 :: bs2))).gs.score +
        (nbRun (mkNbPresented k tgt h lv2 sc2 er2 tr2) (nbRace (b2 :: bs2))).gs.errors =
        sc2 + er2 +
          ((nbRun (mkNbPresented k tgt h lv2 sc2 er2 tr2) (nbRace (b2 :: bs2))).gs.trials - tr2) ∧
      (tgt = true →
        (nbRun (mkNbPresented k tgt h lv2 sc2 er2 tr2) (nbRace (b2 :: bs2))).gs.trials = tr2 + 1) ∧
      (b2 = true →
        (nbRun (mkNbPresented k tgt h lv2 sc2 er2 tr2) (nbRace (b2 :: bs2))).gs.trials = tr2 + 1)) ∧
    reakStep (reakRun (mkReakPresented lv sc er tr) [ReakEv.missFires]) ReakEv.press =
      reakRun (mkReakPresented lv sc er tr) [ReakEv.missFires] ∧
    nbStep (nbRun (mkNbPresented k tgt h lv2 sc2 er2 tr2) [NbEv.displayFires]) NbEv.press =
      nbRun (mkNbPresented k tgt h lv2 sc2 er2 tr2) [NbEv.displayFires] := by
  refine ⟨reak_exactly_one lv sc er tr b bs, nback_at_most_one k tgt h lv2 sc2 er2 tr2 b2 bs2,
    rfl, ?_⟩
  show nbStep (nbStep (mkNbPresented k tgt h lv2 sc2 er2 tr2) NbEv.displayFires) NbEv.press = _
  have hicon : (nbStep (mkNbPresented k tgt h lv2 sc2 er2 tr2) NbEv.displayFires).icon = none := by
    show (startBlankPhase
        { mkNbPresented k tgt h lv2 sc2 er2 tr2 with displayArmed := false }).icon = none
    unfold startBlankPhase
    rw [if_pos ⟨rfl, rfl⟩]
  have hnoop : ∀ s : NbSt, s.icon = none → nbStep s NbEv.press = s := by
    intro s hs
    simp only [nbStep]
    rw [if_pos (Or.inr hs)]
  exact hnoop _ hicon

/-- Witness for C1 (amended): at the concrete presented states, a
target trial resolved by the deadline records exactly one outcome, and
a press-first interleaving records exactly one outcome. -/
theorem trial_single_outcome_witness :
    (reakRun (mkReakPresented 1 0 0 0) (reakRace [false, true])).gs.trials = 0 + 1 ∧
    (nbRun (mkNbPresented 2 true [] 1 0 0 0) (nbRace [true, false])).gs.trials = 0 + 1 :=
  ⟨(trial_single_outcome 1 0 0 0 false [true] 2 true [] 1 0 0 0 true [false]).1.1,
   (trial_single_outcome 1 0 0 0 false [true] 2 true [] 1 0 0 0 true [false]).2.1.2.2.1 rfl⟩

/-- Counterexample to C1 as stated: in Nback, on a non-match
presentation (`isTarget = false`), the deadline firing first and the
user action arriving just after records NEITHER `score+1` nor
`errors+1` — the session counters are all unchanged, violating
"never neither". -/
theorem trial_neither_outcome_cex :
    (nbRun (mkNbPresented 2 false [] 1 0 0 0) (nbRace [false, true])).gs.score = 0 ∧
    (nbRun (mkNbPresented 2 false [] 1 0 0 0) (nbRace [false, true])).gs.errors = 0 ∧
    (nbRun (mkNbPresented 2 false [] 1 0 0 0) (nbRace [false, true])).gs.trials = 0 := by
  refine ⟨?_, ?_, ?_⟩ <;> rfl

/-- C3: evaluation of the Reak pause defect at its failing input.
After mount (stimulus timer armed), pressing pause leaves the timer
armed; the stimulus-onset timer then fires WHILE PAUSED (status
becomes `go`), and the miss timer it arms also fires while paused,
recording an error during the pause. `onPauseToggle` only flips
`isPaused` and cancels nothing, contradicting the required pause
gating (which Nback's watcher effect does implement). -/
theorem reak_pause_timer_leak :
    (reakRun initReakSt [ReakEv.pauseToggle]).gs.isPaused = true ∧
    (reakRun initReakSt [ReakEv.pauseToggle]).goArmed = true ∧
    (reakRun initReakSt [ReakEv.pauseToggle, ReakEv.goFires]).status = RStatus.go ∧
    (reakRun initReakSt [ReakEv.pauseToggle, ReakEv.goFires]).gs.isPaused = true ∧
    (reakRun initReakSt [ReakEv.pauseToggle, ReakEv.goFires]).missArmed = true ∧
    (reakRun initReakSt [ReakEv.pauseToggle, ReakEv.goFires, ReakEv.missFires]).gs.errors = 1 ∧
    (reakRun initReakSt [ReakEv.pauseToggle, ReakEv.goFires, ReakEv.missFires]).gs.isPaused = true := by
  refine ⟨?_, ?_, ?_, ?_, ?_, ?_, ?_⟩ <;> rfl
